import Mathlib

/-!
Verification of the text-analysis caching and segmentation pipeline of the
kunlun chinese-simplifier repository (src/chinese-simplifier/server.js and
src/chinese-simplifier/src/Listen.jsx), shallowly embedded in Lean.

JavaScript strings are modelled as lists of characters (`Str`), JavaScript
objects used as string-keyed maps are modelled as association lists in
insertion order (`setKV` models `obj[key] = value`, `getKV` models reading
`obj[key]`), and the external capabilities (nodejieba segmentation, the
Anthropic LLM endpoint, the Supabase cache store) are modelled as explicit
environment parameters and oracle results.
-/

/-- A JavaScript string, modelled as its sequence of characters. -/
abbrev Str := List Char

/-- A resolved definition entry, the shape `{ pinyin, definitions }` built by
server.js for each phrase. -/
structure DefEntry where
  pinyin : Str
  definitions : Str
deriving Repr, DecidableEq

/-- One segmentation unit with its character offsets, the shape
`{ text, start, end }` built by /api/segment-text and /api/analyze-text.
The source fields are named `start` and `end`; `end` is a Lean keyword, so the
fields are called `startPos` and `stopPos` here.  Offsets are integers because
`String.prototype.indexOf` can return -1 in /api/analyze-text. -/
structure Phrase where
  text : Str
  startPos : Int
  stopPos : Int
deriving Repr, DecidableEq

/- ## Association-list maps (JavaScript objects keyed by strings) -/
/-- Reading `obj[key]` from a JavaScript object modelled as an association
list in insertion order. -/
def getKV {β : Type} : List (Str × β) → Str → Option β
  | [], _ => none
  | p :: m, k => if p.1 = k then some p.2 else getKV m k

/-- The assignment `obj[key] = value` on a JavaScript object: an existing key
keeps its position and is overwritten, a new key is appended.  (A JavaScript
object never holds a duplicate key, so replacing the first occurrence is
exact.)  The same semantics also models a Supabase `upsert` with an
`onConflict` key column: the conflicting row's columns are replaced wholesale
by the supplied values. -/
def setKV {β : Type} : List (Str × β) → Str → β → List (Str × β)
  | [], k, v => [(k, v)]
  | p :: m, k, v => if p.1 = k then (k, v) :: m else p :: setKV m k v

/- ## String utilities shared by the endpoints -/
/-- The whitespace class used by JavaScript `String.prototype.trim` and the
regex class `\s`, restricted to the ASCII whitespace characters that occur in
the data this pipeline handles. -/
def isSpaceChar (c : Char) : Bool :=
  c = ' ' ∨ c = '\t' ∨ c = '\n' ∨ c = '\r'

/-- `s.trim()`. -/
def trimChars (s : Str) : Str :=
  ((s.dropWhile isSpaceChar).reverse.dropWhile isSpaceChar).reverse

/-- `s.split(c)` (JavaScript keeps empty pieces). -/
def splitOnCharAux (c : Char) : Str → Str → List Str
  | [], acc => [acc.reverse]
  | x :: rest, acc =>
    if x = c then acc.reverse :: splitOnCharAux c rest []
    else splitOnCharAux c rest (x :: acc)

/-- `responseText.trim().split('\n').filter(line => line.trim())`, the line
preprocessing applied to every LLM reply before numbered-line parsing
(server.js lines 360, 423, 540, 713). -/
def respLines (txt : Str) : List Str :=
  (splitOnCharAux '\n' (trimChars txt) []).filter (fun l => trimChars l ≠ [])

/-- `parseInt` on a digit string. -/
def natOfDigits (ds : Str) : Nat :=
  ds.foldl (fun n c => n * 10 + (c.toNat - 48)) 0

/-- `line.match(/^(\d+)\.\s*(.+)/)`: a run of digits, a literal dot, optional
whitespace, then at least one remaining character.  Returns the parsed number
and the second capture group.  When everything after the dot is whitespace,
the greedy `\s*` backtracks one character so that `(.+)` still matches a
single whitespace character, as the JavaScript engine does. -/
def matchNumbered (line : Str) : Option (Nat × Str) :=
  let digits := line.takeWhile Char.isDigit
  let rest := line.dropWhile Char.isDigit
  if digits = [] then none
  else
    match rest with
    | '.' :: rest2 =>
      if rest2 = [] then none
      else
        let rest3 := rest2.dropWhile isSpaceChar
        some (natOfDigits digits, if rest3 = [] then [rest2.reverse.headD ' '] else rest3)
    | _ => none

/-- The per-item parse shared by all four numbered-batch response loops:
`lines.find(line => match && parseInt(match[1]) === n)` followed by
re-matching and `match[1].trim()`.  Returns the trimmed definition or
translation text for item number `n`, or `none` when no line carries that
number. -/
def claudeLineFor (lines : List Str) (n : Nat) : Option Str :=
  match lines.find? (fun line => (matchNumbered line).any (fun p => p.1 == n)) with
  | some line => (matchNumbered line).map (fun p => trimChars p.2)
  | none => none

/-- `/[一-龥]/.test(c)` on a single character. -/
def isCJK (c : Char) : Bool :=
  0x4e00 ≤ c.toNat ∧ c.toNat ≤ 0x9fa5

/-- `/[一-龥]/.test(s)`: the text contains at least one CJK
ideograph. -/
def hasCJK (s : Str) : Bool :=
  s.any isCJK

/- ## /api/lookup-definitions (server.js lines 594 to 805) -/
/-- One CC-CEDICT entry as returned by `cedict.getBySimplified`: the entries
for one pinyin variant carry a `pinyin` string and an `english` array of
sense strings. -/
structure CedictEntry where
  pinyin : Str
  english : List Str
deriving Repr, DecidableEq

/-- The sentinel definition text. -/
def noDef : Str := "No definition found".data

/-- The sentinel entry `{ pinyin: '', definitions: 'No definition found' }`. -/
def noDefEntry : DefEntry := ⟨[], noDef⟩

/-- A phrase-to-definition map as built by the endpoints. -/
abbrev DefMap := List (Str × DefEntry)

/-- A string-to-string map (cached phrase or sentence translations). -/
abbrev TrMap := List (Str × Str)

/-- The `transcript_translations` Supabase table: audio hash to cached
phrase-translation map. -/
abbrev TransStore := List (Str × TrMap)

/-- Server.js lines 609 to 634: resolve one phrase against
`cedict.getBySimplified`.  The result object is keyed by pinyin variant; the
code takes the first variant, its first entry, and the first sense
(`entry.english[0]`), substituting the sentinel text when the sense is
falsy. -/
def dictDef (ced : Str → List (Str × List CedictEntry)) (ph : Str) : Option DefEntry :=
  match ced ph with
  | [] => none
  | (_, entryArray) :: _ =>
    match entryArray with
    | [] => none
    | entry :: _ =>
      let firstDefinition := entry.english.headD []
      some ⟨entry.pinyin, if firstDefinition = [] then noDef else firstDefinition⟩

/-- Server.js lines 605 to 635: the dictionary loop.  Hits are written into
`definitions`; misses are pushed onto `phrasesNotFound` in order. -/
def dictPassAux (ced : Str → List (Str × List CedictEntry))
    (acc : DefMap × List Str) : List Str → DefMap × List Str
  | [] => acc
  | ph :: rest =>
    match dictDef ced ph with
    | some e => dictPassAux ced (setKV acc.1 ph e, acc.2) rest
    | none => dictPassAux ced (acc.1, acc.2 ++ [ph]) rest

def dictPass (ced : Str → List (Str × List CedictEntry)) (phrases : List Str) :
    DefMap × List Str :=
  dictPassAux ced ([], []) phrases

/-- Server.js lines 658 to 665: on an audio-hash translation-cache hit, apply
each cached translation (when truthy) to the phrases the dictionary missed. -/
def cachedTrFold (tr : TrMap) (d : DefMap) : List Str → DefMap
  | [] => d
  | ph :: rest =>
    match getKV tr ph with
    | some v =>
      if v = [] then cachedTrFold tr d rest
      else cachedTrFold tr (setKV d ph ⟨[], v⟩) rest
    | none => cachedTrFold tr d rest

/-- Server.js lines 770 to 795 (and 788 to 795): assign the sentinel entry to
every phrase of the failed batch. -/
def sentinelFold (d : DefMap) : List Str → DefMap
  | [] => d
  | ph :: rest => sentinelFold (setKV d ph noDefEntry) rest

/-- Server.js lines 716 to 745: walk the not-found batch with its index;
a parsed numbered line yields a real definition (also collected into
`translationsForCache`), a missing number yields the sentinel entry. -/
def lookupClaudeFold (lines : List Str) (idx : Nat) (acc : DefMap × TrMap) :
    List Str → DefMap × TrMap
  | [] => acc
  | ph :: rest =>
    match claudeLineFor lines (idx + 1) with
    | some g => lookupClaudeFold lines (idx + 1) (setKV acc.1 ph ⟨[], g⟩, setKV acc.2 ph g) rest
    | none => lookupClaudeFold lines (idx + 1) (setKV acc.1 ph noDefEntry, acc.2) rest

/-- The outcome of one `fetch` of the Anthropic endpoint: a 2xx reply with a
response text, a non-2xx status (`claudeResponse.ok === false`), or a thrown
transport error. -/
inductive LLMResult where
  | ok (txt : Str)
  | httpError
  | exn
deriving Repr, DecidableEq

/-- The external state and capability outcomes one /api/lookup-definitions
request sees: the CC-CEDICT data, whether an Anthropic API key is configured,
the outcome of the single batched LLM call, and whether the Supabase reads
and writes of `transcript_translations` succeed. -/
structure LookupEnv where
  ced : Str → List (Str × List CedictEntry)
  apiKey : Bool
  llm : LLMResult
  transReadOk : Bool
  transWriteOk : Bool

/-- The observable outcome of one /api/lookup-definitions request: the
returned definitions map, the `transcript_translations` store afterwards, the
batch of phrases sent to the LLM (empty when no LLM request was made), how
many LLM requests were issued, and the `translationsForCache` map collected
for the audio-scoped cache write. -/
structure LookupOut where
  definitions : DefMap
  store : TransStore
  llmBatch : List Str
  llmCalls : Nat
  forCache : TrMap
deriving Repr, DecidableEq

/-- Server.js lines 594 to 805, /api/lookup-definitions: dictionary pass,
optional audio-scoped translation-cache pass, then one batched LLM call with
per-phrase degradation to the sentinel entry.  The endpoint catches the LLM
transport error internally (lines 778 to 787), so every capability outcome
produces a definitions map. -/
def lookupDefinitions (env : LookupEnv) (tstore : TransStore) (phrases : List Str)
    (audioHash : Option Str) : LookupOut :=
  let dp := dictPass env.ced phrases
  let defs0 := dp.1
  let notFound := dp.2
  if notFound = [] then ⟨defs0, tstore, [], 0, []⟩
  else
    let cachedTr : Option TrMap :=
      match audioHash with
      | some ah => if env.transReadOk then getKV tstore ah else none
      | none => none
    match cachedTr with
    | some tr => ⟨cachedTrFold tr defs0 notFound, tstore, [], 0, []⟩
    | none =>
      if env.apiKey = false then ⟨sentinelFold defs0 notFound, tstore, [], 0, []⟩
      else
        match env.llm with
        | .ok txt =>
          let r := lookupClaudeFold (respLines txt) 0 (defs0, []) notFound
          let tstore1 :=
            match audioHash with
            | some ah =>
              if r.2 ≠ [] ∧ env.transWriteOk then setKV tstore ah r.2 else tstore
            | none => tstore
          ⟨r.1, tstore1, notFound, 1, r.2⟩
        | .httpError => ⟨sentinelFold defs0 notFound, tstore, notFound, 1, []⟩
        | .exn => ⟨sentinelFold defs0 notFound, tstore, notFound, 1, []⟩

/- ## Segmentation position builders (server.js lines 217 to 237 and 283 to 299) -/
/-- JavaScript `hay.indexOf(needle, fromIndex)`: the least position at or
after `fromIndex` (clamped into the string) where `needle` occurs, or -1. -/
def jsIndexOf (hay needle : Str) (fromIdx : Int) : Int :=
  let start := (max fromIdx 0).toNat.min hay.length
  match (List.range (hay.length + 1 - start)).findSome?
      (fun k => if needle.isPrefixOf (hay.drop (start + k)) then some (start + k) else none) with
  | some j => (j : Int)
  | none => -1

/-- Server.js lines 224 to 235, /api/segment-text: positions are accumulated
from the segment lengths (`start = currentIndex; end = start + segment.length`). -/
def buildPhrasesSeqAux (c : Nat) : List Str → List Phrase
  | [] => []
  | s :: rest =>
    ⟨s, (c : Int), ((c + s.length : Nat) : Int)⟩ :: buildPhrasesSeqAux (c + s.length) rest

def buildPhrasesSeq (segs : List Str) : List Phrase :=
  buildPhrasesSeqAux 0 segs

/-- Server.js lines 288 to 299, /api/analyze-text: each start position is
re-located with `text.indexOf(segment, currentIndex)`. -/
def buildPhrasesIdxAux (text : Str) (c : Int) : List Str → List Phrase
  | [] => []
  | s :: rest =>
    let st := jsIndexOf text s c
    let en := st + (s.length : Int)
    ⟨s, st, en⟩ :: buildPhrasesIdxAux text en rest

def buildPhrasesIndexOf (text : Str) (segs : List Str) : List Phrase :=
  buildPhrasesIdxAux text 0 segs

/-- `text[a:b]` for integer offsets, used to state the coverage invariant. -/
def sliceI (text : Str) (a b : Int) : Str :=
  (text.drop a.toNat).take (b - a).toNat

/-- The segmentation coverage invariant of spec sections 3 and 8.1: the first
phrase starts at 0, consecutive phrases abut, the last phrase ends at the text
length, each phrase text is the slice of the text at its offsets, and the
phrase texts concatenate back to the text. -/
def Coverage (text : Str) (ps : List Phrase) : Prop :=
  (∀ hne : ps ≠ [], (ps.head hne).startPos = 0) ∧
  (∀ i, (h2 : i + 1 < ps.length) →
    (ps.get ⟨i, Nat.lt_of_succ_lt h2⟩).stopPos = (ps.get ⟨i + 1, h2⟩).startPos) ∧
  (∀ hne : ps ≠ [], (ps.getLast hne).stopPos = (text.length : Int)) ∧
  (∀ p ∈ ps, p.text = sliceI text p.startPos p.stopPos) ∧
  (ps.map Phrase.text).flatten = text

/- ## /api/analyze-text (server.js lines 246 to 472) -/
/-- An analysis bundle, both the response shape
`{ phrases, definitions, sentence_translations }` and the cached row shape
`{ segmented_phrases, phrase_definitions, sentence_translations }` of the
`text_analysis` table (the row holds exactly the returned values). -/
structure AnalysisBundle where
  phrases : List Phrase
  definitions : DefMap
  sentenceTranslations : Option TrMap
deriving Repr, DecidableEq

/-- The `text_analysis` Supabase table: text hash to cached bundle. -/
abbrev AnalysisStore := List (Str × AnalysisBundle)

/-- Server.js line 310 evaluates `dictionary.getBySimplifiedChinese(chineseText)`,
but the identifier `dictionary` is never bound anywhere in server.js (only
`cedict` is imported, and only /api/lookup-definitions uses it).  Evaluating
the expression therefore raises a ReferenceError, which the surrounding
per-phrase `try`/`catch` (lines 309 to 322) turns into pushing the phrase onto
`phrasesNotFound`.  The entry shape of the dead success branch is
`{ pinyin, englishDefinitions }`. -/
def analyzeDictLookup (_ph : Str) : Except Unit (List (Str × List Str)) :=
  .error ()

/-- Server.js lines 302 to 323: the /api/analyze-text definitions loop.
Phrases without a CJK ideograph are skipped; for the rest the (always
throwing, see `analyzeDictLookup`) dictionary lookup is attempted and the
phrase is pushed onto `phrasesNotFound`.  The success branch mirrors lines
311 to 319 even though it is unreachable. -/
def analyzeDefsAux (acc : DefMap × List Str) : List Str → DefMap × List Str
  | [] => acc
  | ph :: rest =>
    if hasCJK ph = false then analyzeDefsAux acc rest
    else
      match analyzeDictLookup ph with
      | .ok entries =>
        match entries with
        | (pin, senses) :: _ =>
          analyzeDefsAux (setKV acc.1 ph ⟨pin, List.intercalate "; ".data senses⟩, acc.2) rest
        | [] => analyzeDefsAux (acc.1, acc.2 ++ [ph]) rest
      | .error _ => analyzeDefsAux (acc.1, acc.2 ++ [ph]) rest

def analyzeDefsPass (phrases : List Str) : DefMap × List Str :=
  analyzeDefsAux ([], []) phrases

/-- Server.js lines 362 to 377: walk the not-found batch with its index; a
parsed numbered line yields a definition, but a missing number assigns
nothing at all (there is no else branch at this call site). -/
def analyzeDefsFold (lines : List Str) (idx : Nat) (d : DefMap) : List Str → DefMap
  | [] => d
  | ph :: rest =>
    match claudeLineFor lines (idx + 1) with
    | some g => analyzeDefsFold lines (idx + 1) (setKV d ph ⟨[], g⟩) rest
    | none => analyzeDefsFold lines (idx + 1) d rest

/-- Server.js lines 426 to 438: walk the sentences with their index; a parsed
numbered line yields a translation, a missing number assigns nothing (no else
branch at this call site either). -/
def analyzeSentFold (lines : List Str) (idx : Nat) (m : TrMap) : List Str → TrMap
  | [] => m
  | s :: rest =>
    match claudeLineFor lines (idx + 1) with
    | some tr => analyzeSentFold lines (idx + 1) (setKV m s tr) rest
    | none => analyzeSentFold lines (idx + 1) m rest

/-- The terminator class of the sentence regex
`/([^。！？.!?\n]+[。！？.!?\n]|[^。！？.!?\n]+$)/g` (server.js line 386). -/
def isTermChar (c : Char) : Bool :=
  c = '。' ∨ c = '！' ∨ c = '？' ∨ c = '.' ∨ c = '!' ∨ c = '?' ∨ c = '\n'

/-- The global-match scan of the sentence regex: a maximal run of
non-terminators keeps its following terminator; a trailing run without a
terminator is emitted as-is; a terminator with no preceding non-terminator
matches nothing and is skipped. -/
def splitSentencesAux : Str → Str → List Str
  | [], [] => []
  | [], acc => [acc.reverse]
  | c :: rest, acc =>
    if isTermChar c then
      if acc = [] then splitSentencesAux rest []
      else (acc.reverse ++ [c]) :: splitSentencesAux rest []
    else splitSentencesAux rest (c :: acc)

/-- Server.js lines 386 to 387: `(text.match(sentenceRegex) || [text])
.filter(s => s.trim().length > 0).map(s => s.trim())`. -/
def splitSentences (text : Str) : List Str :=
  let ms := splitSentencesAux text []
  let ms := if ms = [] then [text] else ms
  (ms.filter (fun s => trimChars s ≠ [])).map trimChars

/-- External-call counters for one /api/analyze-text request: invocations of
the segmentation capability (`nodejieba.cut`) and of the LLM capability. -/
structure Counts where
  seg : Nat
  llm : Nat
deriving Repr, DecidableEq

/-- The external state and capability outcomes one /api/analyze-text request
sees: the segmenter, whether an API key is configured, the outcomes of the
(at most one) definitions LLM call and the (at most one) sentence-translation
LLM call, and whether the Supabase read and upsert of `text_analysis`
succeed. -/
structure AnalyzeEnv where
  cut : Str → List Str
  apiKey : Bool
  defLLM : LLMResult
  sentLLM : LLMResult
  cacheReadOk : Bool
  upsertOk : Bool

/-- Server.js lines 326 to 380: the Claude fallback for definitions inside
/api/analyze-text.  A thrown transport error escapes to the outer catch (the
fetch is not wrapped in its own try at this call site), failing the whole
request; a non-2xx reply is silently skipped. -/
def defsStep (env : AnalyzeEnv) (defs0 : DefMap) (notFound : List Str) :
    Except Unit (DefMap × Nat) :=
  if notFound = [] then .ok (defs0, 0)
  else if env.apiKey = false then .ok (defs0, 0)
  else
    match env.defLLM with
    | .ok txt => .ok (analyzeDefsFold (respLines txt) 0 defs0 notFound, 1)
    | .httpError => .ok (defs0, 1)
    | .exn => .error ()

/-- Server.js lines 382 to 442: the optional sentence-translation phase.
`sentenceTranslations` is initialised to an empty object only inside the 2xx
branch (line 425), so a non-2xx reply leaves it null; a thrown transport
error escapes to the outer catch. -/
def sentStep (env : AnalyzeEnv) (text : Str) (inc : Bool) :
    Except Unit (Option TrMap × Nat) :=
  if inc = false then .ok (none, 0)
  else
    let sentences := splitSentences text
    if sentences = [] then .ok (none, 0)
    else if env.apiKey = false then .ok (none, 0)
    else
      match env.sentLLM with
      | .ok txt => .ok (some (analyzeSentFold (respLines txt) 0 [] sentences), 1)
      | .httpError => .ok (none, 1)
      | .exn => .error ()

/-- Server.js lines 283 to 442: the full computation run on a cache miss (or
a partial hit): segment with positions, resolve definitions, optionally
translate sentences. -/
def analyzeCompute (env : AnalyzeEnv) (text : Str) (inc : Bool) :
    Except Unit (AnalysisBundle × Counts) :=
  let phrases := buildPhrasesIndexOf text (env.cut text)
  let dp := analyzeDefsPass (phrases.map Phrase.text)
  (defsStep env dp.1 dp.2).bind fun d1 =>
    (sentStep env text inc).map fun s1 =>
      (⟨phrases, d1.1, s1.1⟩, ⟨1, d1.2 + s1.2⟩)

/-- Server.js lines 444 to 460: the `text_analysis` upsert keyed on
`text_hash`; a failed write is only logged. -/
def upsertStep (env : AnalyzeEnv) (st : AnalysisStore) (hash : Str)
    (b : AnalysisBundle) : AnalysisStore :=
  if env.upsertOk then setKV st hash b else st

/-- Server.js lines 246 to 472, /api/analyze-text: validate, read the cache
(a read error is treated as a miss, line 265), serve a hit unless sentence
translations are requested but missing, otherwise recompute everything and
upsert.  Returns the bundle, the store afterwards, and the external-call
counters. -/
def analyze (env : AnalyzeEnv) (st : AnalysisStore) (text hash : Str) (inc : Bool) :
    Except Unit (AnalysisBundle × AnalysisStore × Counts) :=
  if text = [] ∨ hash = [] then .error ()
  else
    match (if env.cacheReadOk then getKV st hash else none) with
    | some rec =>
      if inc = true ∧ rec.sentenceTranslations = none then
        (analyzeCompute env text inc).map fun p => (p.1, upsertStep env st hash p.1, p.2)
      else .ok (rec, st, ⟨0, 0⟩)
    | none =>
      (analyzeCompute env text inc).map fun p => (p.1, upsertStep env st hash p.1, p.2)

/- ## /api/translate-sentences (server.js lines 475 to 591) -/
/-- The `sentence_translations` Supabase table: audio hash to cached
sentence-translation map. -/
abbrev SentStore := List (Str × TrMap)

/-- Server.js lines 543 to 558: walk the sentences with their index; a parsed
numbered line yields its translation, an unmatched number yields the
placeholder `'Translation unavailable'`. -/
def unavailable : Str := "Translation unavailable".data

def transFold (lines : List Str) (idx : Nat) (m : TrMap) : List Str → TrMap
  | [] => m
  | s :: rest =>
    match claudeLineFor lines (idx + 1) with
    | some tr => transFold lines (idx + 1) (setKV m s tr) rest
    | none => transFold lines (idx + 1) (setKV m s unavailable) rest

/-- The external state and capability outcomes one /api/translate-sentences
request sees. -/
structure TransEnv where
  apiKey : Bool
  llm : LLMResult
  sentReadOk : Bool
  sentWriteOk : Bool

/-- Server.js lines 475 to 591, /api/translate-sentences: optional audio-hash
cache hit, then one batched LLM call.  A missing API key returns HTTP 500
(line 507), a non-2xx LLM reply returns HTTP 500 `'Translation failed'`
(line 581), and a thrown transport error is caught and returned as HTTP 500
(lines 583 to 586) — the error branches are modelled as `.error ()`. -/
def translateSentences (env : TransEnv) (st : SentStore) (sentences : List Str)
    (audioHash : Option Str) : Except Unit (TrMap × SentStore) :=
  match (match audioHash with
         | some ah => if env.sentReadOk then getKV st ah else none
         | none => none) with
  | some tr => .ok (tr, st)
  | none =>
    if env.apiKey = false then .error ()
    else
      match env.llm with
      | .ok txt =>
        let translations := transFold (respLines txt) 0 [] sentences
        let st1 :=
          match audioHash with
          | some ah =>
            if translations ≠ [] ∧ env.sentWriteOk then setKV st ah translations else st
          | none => st
        .ok (translations, st1)
      | .httpError => .error ()
      | .exn => .error ()

/- ## /api/check-transcript-cache, /api/transcribe, and the Listen.jsx flow -/
/-- A cached transcript row of the `audio_transcripts` table (only the field
the client flow consumes is modelled). -/
structure TranscriptRow where
  transcript : Str
deriving Repr, DecidableEq

/-- The `audio_transcripts` Supabase table: file hash to transcript row. -/
abbrev TranscriptStore := List (Str × TranscriptRow)

/-- The body of a /api/check-transcript-cache 2xx reply. -/
structure CacheResp where
  cached : Bool
  transcript : Option TranscriptRow
deriving Repr, DecidableEq

/-- Server.js lines 955 to 989, /api/check-transcript-cache: 400 without a
hash; a found row answers `cached: true` with the transcript; a miss or a
read error answers `cached: false`. -/
def checkTranscriptCache (readOk : Bool) (store : TranscriptStore) (fileHash : Str) :
    Except Unit CacheResp :=
  if fileHash = [] then .error ()
  else if readOk then
    match getKV store fileHash with
    | some row => .ok ⟨true, some row⟩
    | none => .ok ⟨false, none⟩
  else .ok ⟨false, none⟩

/-- The externally observable requests the Listen.jsx transcript flow makes. -/
inductive ApiCall where
  | checkCache (h : Str)
  | transcribeUpload (h : Str)
deriving Repr, DecidableEq

/-- The outcome the flow leaves in component state. -/
inductive FlowOutcome where
  | fromCache (t : Str)
  | fresh (t : Str)
  | failed
deriving Repr, DecidableEq

/-- Listen.jsx lines 200 to 293, `handleGenerateTranscript`: hash the file
client-side (`crypto.subtle.digest`, modelled by the `sha` parameter), POST
/api/check-transcript-cache, and only on a miss (or a non-2xx cache reply)
upload the file to /api/transcribe.  A thrown fetch is caught and surfaces an
error without uploading.  Returns the ordered list of requests made and the
outcome. -/
def handleGenerateTranscript (sha : List Nat → Str) (cacheTransportOk : Bool)
    (serverReadOk : Bool) (tstore : TranscriptStore)
    (transcribeResp : Except Unit TranscriptRow) (file : List Nat) :
    List ApiCall × FlowOutcome :=
  if file = [] then ([], .failed)
  else
    let fileHash := sha file
    if cacheTransportOk = false then ([.checkCache fileHash], .failed)
    else
      match checkTranscriptCache serverReadOk tstore fileHash with
      | .ok resp =>
        if resp.cached = true then
          ([.checkCache fileHash],
            .fromCache ((resp.transcript.map TranscriptRow.transcript).getD []))
        else
          ([.checkCache fileHash, .transcribeUpload fileHash],
            match transcribeResp with
            | .ok row => .fresh row.transcript
            | .error _ => .failed)
      | .error _ =>
        ([.checkCache fileHash, .transcribeUpload fileHash],
          match transcribeResp with
          | .ok row => .fresh row.transcript
          | .error _ => .failed)

theorem getKV_nil {β : Type} (k : Str) : getKV ([] : List (Str × β)) k = none := rfl

theorem getKV_cons {β : Type} (p : Str × β) (m : List (Str × β)) (k : Str) :
    getKV (p :: m) k = if p.1 = k then some p.2 else getKV m k := rfl

/-- Looking up the key just written returns the new value. -/
theorem getKV_setKV_self {β : Type} (m : List (Str × β)) (k : Str) (v : β) :
    getKV (setKV m k v) k = some v := by
  induction m with
  | nil => simp [setKV, getKV]
  | cons p m ih =>
    by_cases h : p.1 = k
    · simp [setKV, getKV, h]
    · simp [setKV, getKV, h, ih]

/-- Writing one key does not change the value stored at another key. -/
theorem getKV_setKV_ne {β : Type} (m : List (Str × β)) (k j : Str) (v : β)
    (hne : k ≠ j) :
    getKV (setKV m k v) j = getKV m j := by
  induction m with
  | nil => simp [setKV, getKV, hne]
  | cons p m ih =>
    by_cases h : p.1 = k
    · subst h
      simp [setKV, getKV, hne]
    · simp only [setKV, h, if_false]
      rw [getKV_cons, getKV_cons]
      by_cases h2 : p.1 = j
      · simp [h2]
      · simp [h2, ih]

/-- Writing a key leaves every lookup either unchanged or at the new value. -/
theorem getKV_setKV_isSome {β : Type} (m : List (Str × β)) (k j : Str) (v : β)
    (h : (getKV m j).isSome = true) :
    (getKV (setKV m k v) j).isSome = true := by
  by_cases hk : k = j
  · subst hk; simp [getKV_setKV_self]
  · rw [getKV_setKV_ne m k j v hk]; exact h

example : respLines "1. one\n\n2. two\n".data = ["1. one".data, "2. two".data] := by decide

example : claudeLineFor (respLines "2. two\n1. one".data) 1 = some "one".data := by decide

example : claudeLineFor (respLines "2. two".data) 1 = none := by decide

example : hasCJK "我a".data = true ∧ hasCJK "a,1，".data = false := by decide

/- ## Properties of the dictionary pass and the degradation folds -/
theorem dictPassAux_snd (ced : Str → List (Str × List CedictEntry))
    (d : DefMap) (nf : List Str) (l : List Str) :
    (dictPassAux ced (d, nf) l).2 = nf ++ l.filter (fun ph => (dictDef ced ph).isNone) := by
  induction l generalizing d nf with
  | nil => simp [dictPassAux]
  | cons x rest ih =>
    cases hx : dictDef ced x with
    | some e => simp [dictPassAux, hx, ih]
    | none => simp [dictPassAux, hx, ih]

theorem dictPass_snd (ced : Str → List (Str × List CedictEntry)) (phrases : List Str) :
    (dictPass ced phrases).2 = phrases.filter (fun ph => (dictDef ced ph).isNone) := by
  simpa using dictPassAux_snd ced [] [] phrases

theorem dictPassAux_fst_pres (ced : Str → List (Str × List CedictEntry))
    (d : DefMap) (nf : List Str) (l : List Str) (ph : Str) (h : ph ∉ l) :
    getKV (dictPassAux ced (d, nf) l).1 ph = getKV d ph := by
  induction l generalizing d nf with
  | nil => rfl
  | cons x rest ih =>
    have hx : x ≠ ph := fun he => h (he ▸ List.mem_cons_self x rest)
    have hrest : ph ∉ rest := fun hm => h (List.mem_cons_of_mem x hm)
    cases he : dictDef ced x with
    | some e =>
      simp only [dictPassAux, he]
      rw [ih _ _ hrest, getKV_setKV_ne _ _ _ _ hx]
    | none =>
      simp only [dictPassAux, he]
      exact ih _ _ hrest

theorem dictPassAux_fst_hit (ced : Str → List (Str × List CedictEntry))
    (d : DefMap) (nf : List Str) (l : List Str) (ph : Str) (e : DefEntry)
    (hdict : dictDef ced ph = some e) (h : ph ∈ l) :
    getKV (dictPassAux ced (d, nf) l).1 ph = some e := by
  induction l generalizing d nf with
  | nil => cases h
  | cons x rest ih =>
    by_cases hmem : ph ∈ rest
    · cases he : dictDef ced x with
      | some f => simp only [dictPassAux, he]; exact ih _ _ hmem
      | none => simp only [dictPassAux, he]; exact ih _ _ hmem
    · have hx : x = ph := by
        rcases List.mem_cons.mp h with h1 | h1
        · exact h1.symm
        · exact absurd h1 hmem
      subst hx
      simp only [dictPassAux, hdict]
      rw [dictPassAux_fst_pres _ _ _ _ _ hmem, getKV_setKV_self]

theorem dictPassAux_fst_miss (ced : Str → List (Str × List CedictEntry))
    (d : DefMap) (nf : List Str) (l : List Str) (ph : Str)
    (hdict : dictDef ced ph = none) :
    getKV (dictPassAux ced (d, nf) l).1 ph = getKV d ph := by
  induction l generalizing d nf with
  | nil => rfl
  | cons x rest ih =>
    cases he : dictDef ced x with
    | some f =>
      have hx : x ≠ ph := fun hxe => by rw [hxe, hdict] at he; cases he
      simp only [dictPassAux, he]
      rw [ih _ _, getKV_setKV_ne _ _ _ _ hx]
    | none =>
      simp only [dictPassAux, he]
      exact ih _ _

theorem dictPass_fst_hit (ced : Str → List (Str × List CedictEntry))
    (phrases : List Str) (ph : Str) (e : DefEntry)
    (hdict : dictDef ced ph = some e) (h : ph ∈ phrases) :
    getKV (dictPass ced phrases).1 ph = some e :=
  dictPassAux_fst_hit ced [] [] phrases ph e hdict h

theorem dictPass_fst_miss (ced : Str → List (Str × List CedictEntry))
    (phrases : List Str) (ph : Str) (hdict : dictDef ced ph = none) :
    getKV (dictPass ced phrases).1 ph = none :=
  dictPassAux_fst_miss ced [] [] phrases ph hdict

theorem sentinelFold_get (d : DefMap) (l : List Str) (k : Str) :
    getKV (sentinelFold d l) k = if k ∈ l then some noDefEntry else getKV d k := by
  induction l generalizing d with
  | nil => simp [sentinelFold]
  | cons x rest ih =>
    simp only [sentinelFold]
    rw [ih]
    by_cases hmem : k ∈ rest
    · simp [hmem, List.mem_cons]
    · by_cases hx : k = x
      · subst hx
        simp [hmem, getKV_setKV_self]
      · have : ¬(k ∈ x :: rest) := by
          simp [List.mem_cons, hx, hmem]
        simp only [hmem, if_false, this, if_false]
        exact getKV_setKV_ne _ _ _ _ (fun he => hx he.symm)

theorem lookupClaudeFold_fst_pres (lines : List Str) (idx : Nat)
    (acc : DefMap × TrMap) (l : List Str) (k : Str) (h : k ∉ l) :
    getKV (lookupClaudeFold lines idx acc l).1 k = getKV acc.1 k := by
  induction l generalizing idx acc with
  | nil => rfl
  | cons x rest ih =>
    have hx : x ≠ k := fun he => h (he ▸ List.mem_cons_self x rest)
    have hrest : k ∉ rest := fun hm => h (List.mem_cons_of_mem x hm)
    cases hg : claudeLineFor lines (idx + 1) with
    | some g =>
      simp only [lookupClaudeFold, hg]
      rw [ih _ _ hrest]
      exact getKV_setKV_ne _ _ _ _ hx
    | none =>
      simp only [lookupClaudeFold, hg]
      rw [ih _ _ hrest]
      exact getKV_setKV_ne _ _ _ _ hx

theorem lookupClaudeFold_fst_isSome (lines : List Str) (idx : Nat)
    (acc : DefMap × TrMap) (l : List Str) (k : Str) (h : k ∈ l) :
    (getKV (lookupClaudeFold lines idx acc l).1 k).isSome = true := by
  induction l generalizing idx acc with
  | nil => cases h
  | cons x rest ih =>
    by_cases hmem : k ∈ rest
    · cases hg : claudeLineFor lines (idx + 1) with
      | some g => simp only [lookupClaudeFold, hg]; exact ih _ _ hmem
      | none => simp only [lookupClaudeFold, hg]; exact ih _ _ hmem
    · have hx : x = k := by
        rcases List.mem_cons.mp h with h1 | h1
        · exact h1.symm
        · exact absurd h1 hmem
      subst hx
      cases hg : claudeLineFor lines (idx + 1) with
      | some g =>
        simp only [lookupClaudeFold, hg]
        rw [lookupClaudeFold_fst_pres _ _ _ _ _ hmem, getKV_setKV_self]
        rfl
      | none =>
        simp only [lookupClaudeFold, hg]
        rw [lookupClaudeFold_fst_pres _ _ _ _ _ hmem, getKV_setKV_self]
        rfl

/- ## Claim C6: definition-resolver degradation on LLM failure -/
/-- Claim C6: for every batch of phrases, when the LLM capability fails
(missing API credential, non-2xx response, or thrown network error) the
/api/lookup-definitions resolve call still returns a map assigning every
dictionary hit its dictionary entry and every other phrase the sentinel
`No definition found` with empty pinyin; the call does not raise (the
embedding is total and these branches return normally) and the store is
untouched. -/
theorem claim_C6_degradation (env : LookupEnv) (st : TransStore) (phrases : List Str)
    (hfail : env.apiKey = false ∨ env.llm = .httpError ∨ env.llm = .exn) :
    (lookupDefinitions env st phrases none).store = st ∧
    ∀ ph ∈ phrases,
      getKV (lookupDefinitions env st phrases none).definitions ph
        = some ((dictDef env.ced ph).getD noDefEntry) := by
  by_cases hnf : (dictPass env.ced phrases).2 = []
  · have hres : lookupDefinitions env st phrases none
        = ⟨(dictPass env.ced phrases).1, st, [], 0, []⟩ := by
      simp [lookupDefinitions, hnf]
    rw [hres]
    refine ⟨rfl, ?_⟩
    intro ph hph
    cases hd : dictDef env.ced ph with
    | some e => simpa [hd] using dictPass_fst_hit env.ced phrases ph e hd hph
    | none =>
      exfalso
      have hmem : ph ∈ (dictPass env.ced phrases).2 := by
        rw [dictPass_snd]
        exact List.mem_filter.mpr ⟨hph, by simp [hd]⟩
      rw [hnf] at hmem
      cases hmem
  · have hdefs : (lookupDefinitions env st phrases none).definitions
        = sentinelFold (dictPass env.ced phrases).1 (dictPass env.ced phrases).2 ∧
        (lookupDefinitions env st phrases none).store = st := by
      by_cases hk : env.apiKey = false
      · simp [lookupDefinitions, hnf, hk]
      · rcases hfail with hf | hf | hf
        · exact absurd hf hk
        · simp [lookupDefinitions, hnf, hk, hf]
        · simp [lookupDefinitions, hnf, hk, hf]
    refine ⟨hdefs.2, ?_⟩
    intro ph hph
    rw [hdefs.1, sentinelFold_get]
    cases hd : dictDef env.ced ph with
    | some e =>
      have hnotin : ph ∉ (dictPass env.ced phrases).2 := by
        rw [dictPass_snd]
        intro hmem
        have h2 := (List.mem_filter.mp hmem).2
        simp [hd] at h2
      rw [if_neg hnotin]
      simpa [hd] using dictPass_fst_hit env.ced phrases ph e hd hph
    | none =>
      have hin : ph ∈ (dictPass env.ced phrases).2 := by
        rw [dictPass_snd]
        exact List.mem_filter.mpr ⟨hph, by simp [hd]⟩
      rw [if_pos hin]
      simp [hd]

/-- Witness for claim C6 at a concrete input: with a dictionary containing
only 我 and no API key, the resolver returns the dictionary entry for 我 and
the sentinel for the unknown word, and leaves the store unchanged. -/
theorem claim_C6_witness :
    (lookupDefinitions
        ⟨fun s => if s = "我".data then [("wo3".data, [⟨"wo3".data, ["I".data]⟩])] else [],
          false, .exn, true, true⟩
        [] ["我".data, "晶晶".data] none).store = ([] : TransStore) ∧
    getKV (lookupDefinitions
        ⟨fun s => if s = "我".data then [("wo3".data, [⟨"wo3".data, ["I".data]⟩])] else [],
          false, .exn, true, true⟩
        [] ["我".data, "晶晶".data] none).definitions "我".data = some ⟨"wo3".data, "I".data⟩ ∧
    getKV (lookupDefinitions
        ⟨fun s => if s = "我".data then [("wo3".data, [⟨"wo3".data, ["I".data]⟩])] else [],
          false, .exn, true, true⟩
        [] ["我".data, "晶晶".data] none).definitions "晶晶".data = some noDefEntry := by
  have h := claim_C6_degradation
    ⟨fun s => if s = "我".data then [("wo3".data, [⟨"wo3".data, ["I".data]⟩])] else [],
      false, .exn, true, true⟩
    [] ["我".data, "晶晶".data] (Or.inl rfl)
  refine ⟨h.1, ?_, ?_⟩
  · exact (h.2 "我".data (by decide)).trans (by decide)
  · exact (h.2 "晶晶".data (by decide)).trans (by decide)

/- ## Claim C4: structural completeness of the definitions map -/
/-- Claim C4 as stated is false of /api/analyze-text: with one CJK phrase 中
whose number is absent from the LLM reply (the reply only numbers item 2),
the returned and cached definitions map is empty — the phrase is omitted
instead of receiving the `No definition found` sentinel, so the bundle is
sparse. -/
theorem claim_C4_counterexample :
    analyze ⟨fun s => [s], true, .ok "2. stray".data, .httpError, true, true⟩
        [] "中".data "h".data false
      = .ok (⟨[⟨"中".data, 0, 1⟩], [], none⟩,
             [("h".data, ⟨[⟨"中".data, 0, 1⟩], [], none⟩)], ⟨1, 1⟩) ∧
    hasCJK "中".data = true ∧
    getKV ([] : DefMap) "中".data = none := by
  exact ⟨rfl, by decide, rfl⟩

/-- Claim C4 (amended): the completeness guarantee holds of the
/api/lookup-definitions resolver (when no audio-scoped cache hit intervenes):
every requested phrase — CJK-bearing or not, since this endpoint does not
filter — receives some entry in the returned map, a dictionary entry, a
parsed LLM definition, or the `No definition found` sentinel, under every LLM
outcome.  In /api/analyze-text, by contrast, a phrase whose number is missing
from the LLM reply (or whose LLM call fails, or with no API key at all) is
simply omitted, so that map can be sparse. -/
theorem claim_C4_amended (env : LookupEnv) (st : TransStore) (phrases : List Str)
    (ph : Str) (hph : ph ∈ phrases) :
    (getKV (lookupDefinitions env st phrases none).definitions ph).isSome = true := by
  by_cases hnf : (dictPass env.ced phrases).2 = []
  · have hres : lookupDefinitions env st phrases none
        = ⟨(dictPass env.ced phrases).1, st, [], 0, []⟩ := by
      simp [lookupDefinitions, hnf]
    rw [hres]
    cases hd : dictDef env.ced ph with
    | some e => rw [dictPass_fst_hit env.ced phrases ph e hd hph]; rfl
    | none =>
      exfalso
      have hmem : ph ∈ (dictPass env.ced phrases).2 := by
        rw [dictPass_snd]
        exact List.mem_filter.mpr ⟨hph, by simp [hd]⟩
      rw [hnf] at hmem
      cases hmem
  · have hdict : ph ∈ (dictPass env.ced phrases).2 ∨
        (getKV (dictPass env.ced phrases).1 ph).isSome = true := by
      cases hd : dictDef env.ced ph with
      | some e =>
        right
        rw [dictPass_fst_hit env.ced phrases ph e hd hph]
        rfl
      | none =>
        left
        rw [dictPass_snd]
        exact List.mem_filter.mpr ⟨hph, by simp [hd]⟩
    have hsent : (getKV (sentinelFold (dictPass env.ced phrases).1
        (dictPass env.ced phrases).2) ph).isSome = true := by
      rw [sentinelFold_get]
      rcases hdict with hmem | hsome
      · rw [if_pos hmem]; rfl
      · by_cases hmem : ph ∈ (dictPass env.ced phrases).2
        · rw [if_pos hmem]; rfl
        · rw [if_neg hmem]; exact hsome
    by_cases hk : env.apiKey = false
    · have hres : (lookupDefinitions env st phrases none).definitions
          = sentinelFold (dictPass env.ced phrases).1 (dictPass env.ced phrases).2 := by
        simp [lookupDefinitions, hnf, hk]
      rw [hres]
      exact hsent
    · cases hl : env.llm with
      | ok txt =>
        have hres : (lookupDefinitions env st phrases none).definitions
            = (lookupClaudeFold (respLines txt) 0 ((dictPass env.ced phrases).1, [])
                (dictPass env.ced phrases).2).1 := by
          simp [lookupDefinitions, hnf, hk, hl]
        rw [hres]
        by_cases hmem : ph ∈ (dictPass env.ced phrases).2
        · exact lookupClaudeFold_fst_isSome _ _ _ _ _ hmem
        · rw [lookupClaudeFold_fst_pres _ _ _ _ _ hmem]
          rcases hdict with hmem2 | hsome
          · exact absurd hmem2 hmem
          · exact hsome
      | httpError =>
        have hres : (lookupDefinitions env st phrases none).definitions
            = sentinelFold (dictPass env.ced phrases).1 (dictPass env.ced phrases).2 := by
          simp [lookupDefinitions, hnf, hk, hl]
        rw [hres]
        exact hsent
      | exn =>
        have hres : (lookupDefinitions env st phrases none).definitions
            = sentinelFold (dictPass env.ced phrases).1 (dictPass env.ced phrases).2 := by
          simp [lookupDefinitions, hnf, hk, hl]
        rw [hres]
        exact hsent

/-- Witness for the amended claim C4 at a concrete input: a phrase whose
number is missing from an otherwise well-formed LLM reply still receives an
entry from /api/lookup-definitions. -/
theorem claim_C4_witness :
    (getKV (lookupDefinitions ⟨fun _ => [], true, .ok "5. stray".data, true, true⟩
        [] ["中".data] none).definitions "中".data).isSome = true :=
  claim_C4_amended ⟨fun _ => [], true, .ok "5. stray".data, true, true⟩
    [] ["中".data] "中".data (by decide)

/- ## Claim C8: non-lexical filtering -/
/-- Because the `dictionary` identifier is unbound (see `analyzeDictLookup`),
the /api/analyze-text definitions loop assigns nothing and collects exactly
the CJK-bearing phrases, in order. -/
theorem analyzeDefsAux_spec (acc : DefMap × List Str) (l : List Str) :
    analyzeDefsAux acc l = (acc.1, acc.2 ++ l.filter hasCJK) := by
  induction l generalizing acc with
  | nil => simp [analyzeDefsAux]
  | cons x rest ih =>
    by_cases hx : hasCJK x = false
    · simp [analyzeDefsAux, hx, ih, List.filter_cons]
    · have hx2 : hasCJK x = true := by
        cases h : hasCJK x with
        | true => rfl
        | false => exact absurd h hx
      simp [analyzeDefsAux, hx, hx2, analyzeDictLookup, ih, List.filter_cons]

theorem analyzeDefsPass_spec (l : List Str) :
    analyzeDefsPass l = ([], l.filter hasCJK) := by
  simpa using analyzeDefsAux_spec ([], []) l

/-- Claim C8 as stated is false of /api/lookup-definitions, which has no CJK
filter: resolving `["，", "123"]` (with no API key configured) returns a
two-entry map carrying the sentinel for both non-lexical phrases, not the
empty map; and with a key configured, the punctuation phrase is even placed
in the batch sent to the LLM. -/
theorem claim_C8_counterexample :
    (lookupDefinitions ⟨fun _ => [], false, .exn, true, true⟩
        [] ["，".data, "123".data] none).definitions
      = [("，".data, noDefEntry), ("123".data, noDefEntry)] ∧
    (lookupDefinitions ⟨fun _ => [], true, .ok "1. comma".data, true, true⟩
        [] ["，".data] none).llmBatch = ["，".data] := by
  exact ⟨rfl, rfl⟩

/-- Claim C8 (amended): the non-lexical filter exists only in the
/api/analyze-text resolver: there, a phrase without a CJK ideograph is
skipped entirely — it is never assigned a definition and never enters the
batch destined for the LLM.  The /api/lookup-definitions endpoint applies no
such filter (see the counterexample). -/
theorem claim_C8_amended (phrases : List Str) (ph : Str) (h : hasCJK ph = false) :
    getKV (analyzeDefsPass phrases).1 ph = none ∧ ph ∉ (analyzeDefsPass phrases).2 := by
  rw [analyzeDefsPass_spec]
  refine ⟨rfl, ?_⟩
  intro hmem
  have h2 := (List.mem_filter.mp hmem).2
  rw [h] at h2
  cases h2

/-- Witness for the amended claim C8 at a concrete input: the punctuation
phrase and the digit phrase are absent from both outputs of the
/api/analyze-text definitions loop. -/
theorem claim_C8_witness :
    (getKV (analyzeDefsPass ["，".data, "123".data, "中".data]).1 "，".data = none ∧
      "，".data ∉ (analyzeDefsPass ["，".data, "123".data, "中".data]).2) ∧
    (getKV (analyzeDefsPass ["，".data, "123".data, "中".data]).1 "123".data = none ∧
      "123".data ∉ (analyzeDefsPass ["，".data, "123".data, "中".data]).2) :=
  ⟨claim_C8_amended ["，".data, "123".data, "中".data] "，".data (by decide),
   claim_C8_amended ["，".data, "123".data, "中".data] "123".data (by decide)⟩

/- ## Claim C10: the audio-scoped translation cache write replaces, not merges -/
/-- Claim C10 as stated is false: the `transcript_translations` upsert
replaces the stored translations map wholesale.  Concretely, with a record
for audio hash `a` caching a translation for 甲, a resolve call whose cache
read errors (and therefore proceeds as a miss) writes the map for 乙 and the
previously cached entry for 甲 is gone. -/
theorem claim_C10_counterexample :
    (lookupDefinitions ⟨fun _ => [], true, .ok "1. second".data, false, true⟩
        [("a".data, [("甲".data, "old".data)])] ["乙".data] (some "a".data)).store
      = [("a".data, [("乙".data, "second".data)])] ∧
    getKV [("乙".data, "second".data)] "甲".data = none := by
  exact ⟨rfl, rfl⟩

/-- Claim C10 (amended): the upsert is a wholesale replace: whenever a
/api/lookup-definitions call writes the audio-scoped translation cache (it
does so exactly when it collected a non-empty `translationsForCache` and the
write succeeds), the stored map for that audio hash afterwards is exactly the
fresh map — entries of any previously stored record that are absent from the
new write are lost.  (In normal operation the write only fires when the cache
read found no record; overwriting an existing record requires the read to
have failed, as in the counterexample.) -/
theorem claim_C10_amended (env : LookupEnv) (st : TransStore) (phrases : List Str)
    (ah : Str) (hw : env.transWriteOk = true)
    (hfc : (lookupDefinitions env st phrases (some ah)).forCache ≠ []) :
    getKV (lookupDefinitions env st phrases (some ah)).store ah
      = some (lookupDefinitions env st phrases (some ah)).forCache := by
  by_cases hnf : (dictPass env.ced phrases).2 = []
  · exfalso
    apply hfc
    simp [lookupDefinitions, hnf]
  · cases hct : (if env.transReadOk then getKV st ah else none) with
    | some tr =>
      exfalso
      apply hfc
      simp [lookupDefinitions, hnf, hct]
    | none =>
      by_cases hk : env.apiKey = false
      · exfalso
        apply hfc
        simp [lookupDefinitions, hnf, hct, hk]
      · cases hl : env.llm with
        | ok txt =>
          have hfc2 : (lookupClaudeFold (respLines txt) 0 ((dictPass env.ced phrases).1, [])
              (dictPass env.ced phrases).2).2 ≠ [] := by
            intro hempty
            apply hfc
            simp [lookupDefinitions, hnf, hct, hk, hl, hempty]
          have hres : lookupDefinitions env st phrases (some ah)
              = ⟨(lookupClaudeFold (respLines txt) 0 ((dictPass env.ced phrases).1, [])
                    (dictPass env.ced phrases).2).1,
                 setKV st ah (lookupClaudeFold (respLines txt) 0 ((dictPass env.ced phrases).1, [])
                    (dictPass env.ced phrases).2).2,
                 (dictPass env.ced phrases).2, 1,
                 (lookupClaudeFold (respLines txt) 0 ((dictPass env.ced phrases).1, [])
                    (dictPass env.ced phrases).2).2⟩ := by
            simp [lookupDefinitions, hnf, hct, hk, hl, hfc2, hw]
          rw [hres]
          exact getKV_setKV_self st ah _
        | httpError =>
          exfalso
          apply hfc
          simp [lookupDefinitions, hnf, hct, hk, hl]
        | exn =>
          exfalso
          apply hfc
          simp [lookupDefinitions, hnf, hct, hk, hl]

/-- Witness for the amended claim C10 at a concrete input: after the write,
the stored record for the audio hash equals exactly the freshly collected
map. -/
theorem claim_C10_witness :
    getKV (lookupDefinitions ⟨fun _ => [], true, .ok "1. second".data, false, true⟩
        [("a".data, [("甲".data, "old".data)])] ["乙".data] (some "a".data)).store "a".data
      = some (lookupDefinitions ⟨fun _ => [], true, .ok "1. second".data, false, true⟩
        [("a".data, [("甲".data, "old".data)])] ["乙".data] (some "a".data)).forCache :=
  claim_C10_amended ⟨fun _ => [], true, .ok "1. second".data, false, true⟩
    [("a".data, [("甲".data, "old".data)])] ["乙".data] "a".data rfl (by decide)

/- ## Claim C3: dictionary priority in definition resolution -/
/-- Claim C3 names the intended behavior, but /api/analyze-text cannot
deliver it: because the identifier `dictionary` is unbound (see
`analyzeDictLookup`), its per-phrase lookup always throws and every
CJK-bearing phrase — here 我, which the CC-CEDICT data resolves — is placed
in the LLM batch with no dictionary definition.  The same dictionary data,
queried through the correct `cedict.getBySimplified` call of
/api/lookup-definitions, produces a hit and an empty LLM batch. -/
theorem claim_C3_dictionary_bug :
    analyzeDefsPass ["我".data] = ([], ["我".data]) ∧
    dictDef (fun s => if s = "我".data then [("wo3".data, [⟨"wo3".data, ["I".data]⟩])] else [])
      "我".data = some ⟨"wo3".data, "I".data⟩ ∧
    (lookupDefinitions
        ⟨fun s => if s = "我".data then [("wo3".data, [⟨"wo3".data, ["I".data]⟩])] else [],
          true, .ok "1. stray".data, true, true⟩
        [] ["我".data] none).llmBatch = [] ∧
    getKV (lookupDefinitions
        ⟨fun s => if s = "我".data then [("wo3".data, [⟨"wo3".data, ["I".data]⟩])] else [],
          true, .ok "1. stray".data, true, true⟩
        [] ["我".data] none).definitions "我".data = some ⟨"wo3".data, "I".data⟩ := by
  exact ⟨rfl, rfl, rfl, rfl⟩

/- ## Claim C5: segmentation coverage invariant -/
theorem buildPhrasesSeqAux_texts (c : Nat) (segs : List Str) :
    (buildPhrasesSeqAux c segs).map Phrase.text = segs := by
  induction segs generalizing c with
  | nil => rfl
  | cons s rest ih => simp [buildPhrasesSeqAux, ih]

theorem buildPhrasesSeqAux_length (c : Nat) (segs : List Str) :
    (buildPhrasesSeqAux c segs).length = segs.length := by
  induction segs generalizing c with
  | nil => rfl
  | cons s rest ih => simp [buildPhrasesSeqAux, ih]

theorem buildPhrasesSeqAux_chain (segs : List Str) (c : Nat) (i : Nat)
    (h2 : i + 1 < (buildPhrasesSeqAux c segs).length) :
    ((buildPhrasesSeqAux c segs).get ⟨i, Nat.lt_of_succ_lt h2⟩).stopPos
      = ((buildPhrasesSeqAux c segs).get ⟨i + 1, h2⟩).startPos := by
  induction segs generalizing c i with
  | nil => simp [buildPhrasesSeqAux] at h2
  | cons s rest ih =>
    cases i with
    | zero =>
      cases rest with
      | nil => simp [buildPhrasesSeqAux] at h2
      | cons r rest2 => simp [buildPhrasesSeqAux]
    | succ j =>
      have h3 : j + 1 < (buildPhrasesSeqAux (c + s.length) rest).length := by
        simpa [buildPhrasesSeqAux] using h2
      simpa [buildPhrasesSeqAux] using ih (c + s.length) j h3

theorem buildPhrasesSeqAux_last (c : Nat) (segs : List Str)
    (hne : buildPhrasesSeqAux c segs ≠ []) :
    ((buildPhrasesSeqAux c segs).getLast hne).stopPos
      = ((c + segs.flatten.length : Nat) : Int) := by
  induction segs generalizing c with
  | nil => exact absurd rfl hne
  | cons s rest ih =>
    cases rest with
    | nil => simp [buildPhrasesSeqAux]
    | cons r rest2 =>
      have hne2 : buildPhrasesSeqAux (c + s.length) (r :: rest2) ≠ [] := by
        simp [buildPhrasesSeqAux]
      have hlast : ((buildPhrasesSeqAux c (s :: r :: rest2)).getLast hne)
          = ((buildPhrasesSeqAux (c + s.length) (r :: rest2)).getLast hne2) := by
        simp only [buildPhrasesSeqAux]
        exact List.getLast_cons hne2
      rw [hlast, ih (c + s.length) hne2]
      have hf : ((s :: r :: rest2).flatten).length
          = s.length + ((r :: rest2).flatten).length := by
        simp
      have hlen2 : c + s.length + ((r :: rest2).flatten).length
          = c + ((s :: r :: rest2).flatten).length := by
        rw [hf]
        omega
      exact congrArg (fun n : Nat => (n : Int)) hlen2

theorem buildPhrasesSeqAux_slice (segs : List Str) (c : Nat) (text : Str)
    (hdrop : segs.flatten = text.drop c) (hc : c ≤ text.length) :
    ∀ p ∈ buildPhrasesSeqAux c segs, p.text = sliceI text p.startPos p.stopPos := by
  induction segs generalizing c with
  | nil => intro p hp; cases hp
  | cons s rest ih =>
    intro p hp
    have hlen : s.length ≤ text.length - c := by
      have h3 : ((s :: rest).flatten).length = (text.drop c).length := by rw [hdrop]
      simp at h3
      omega
    rcases List.mem_cons.mp hp with hp1 | hp1
    · subst hp1
      show s = sliceI text (c : Int) ((c + s.length : Nat) : Int)
      unfold sliceI
      have h1 : ((c : Int)).toNat = c := Int.toNat_natCast c
      have h2 : (((c + s.length : Nat) : Int) - (c : Int)).toNat = s.length := by
        push_cast
        omega
      rw [h1, h2, ← hdrop]
      simp
    · have hdrop2 : rest.flatten = text.drop (c + s.length) := by
        have h1 : text.drop (c + s.length) = (text.drop c).drop s.length := by
          rw [List.drop_drop]
        rw [h1, ← hdrop]
        simp
      have hc2 : c + s.length ≤ text.length := by omega
      exact ih (c + s.length) hdrop2 hc2 p hp1

theorem isPrefixOf_append_self (s t : Str) : s.isPrefixOf (s ++ t) = true := by
  induction s with
  | nil => simp [List.isPrefixOf]
  | cons a as ih => simp [List.isPrefixOf, ih]

theorem jsIndexOf_at (text s : Str) (c : Nat) (hc : c ≤ text.length)
    (hpre : s.isPrefixOf (text.drop c) = true) :
    jsIndexOf text s (c : Int) = (c : Int) := by
  have hstart : (max (c : Int) 0).toNat.min text.length = c := by
    rw [max_eq_left (Int.natCast_nonneg c), Int.toNat_natCast]
    exact Nat.min_eq_left hc
  have hrange : text.length + 1 - c = (text.length - c) + 1 := by omega
  simp only [jsIndexOf, hstart, hrange, List.range_succ_eq_map, List.findSome?_cons,
    Nat.add_zero, hpre, if_true]

theorem buildPhrasesIdx_eq_seq (segs : List Str) (text : Str) (c : Nat)
    (hdrop : segs.flatten = text.drop c) (hc : c ≤ text.length) :
    buildPhrasesIdxAux text (c : Int) segs = buildPhrasesSeqAux c segs := by
  induction segs generalizing c with
  | nil => rfl
  | cons s rest ih =>
    have hpre : s.isPrefixOf (text.drop c) = true := by
      rw [← hdrop]
      exact isPrefixOf_append_self s rest.flatten
    have hst : jsIndexOf text s (c : Int) = (c : Int) := jsIndexOf_at text s c hc hpre
    have hlen : s.length ≤ text.length - c := by
      have h3 : ((s :: rest).flatten).length = (text.drop c).length := by rw [hdrop]
      simp at h3
      omega
    have hdrop2 : rest.flatten = text.drop (c + s.length) := by
      have h1 : text.drop (c + s.length) = (text.drop c).drop s.length := by
        rw [List.drop_drop]
      rw [h1, ← hdrop]
      simp
    have hc2 : c + s.length ≤ text.length := by omega
    have hcast : (c : Int) + (s.length : Int) = ((c + s.length : Nat) : Int) := by
      push_cast
      ring
    have hunfold : buildPhrasesIdxAux text (c : Int) (s :: rest)
        = ⟨s, jsIndexOf text s (c : Int), jsIndexOf text s (c : Int) + (s.length : Int)⟩
            :: buildPhrasesIdxAux text (jsIndexOf text s (c : Int) + (s.length : Int)) rest := rfl
    rw [hunfold, hst, hcast, ih (c + s.length) hdrop2 hc2]
    rfl

/-- Claim C5: for every input text and every segment list the external
tokenizer returns for it (whose concatenation is the text, the contract of
`nodejieba.cut`), both position builders — the cumulative one of
/api/segment-text and the `indexOf`-based one of /api/analyze-text — produce
the same phrase list, and it satisfies the coverage invariant: the first
phrase starts at 0, consecutive phrases abut, the last phrase ends at the
text length, every phrase text equals the slice of the text at its offsets,
and the phrase texts concatenate back to the text. -/
theorem claim_C5_coverage (text : Str) (segs : List Str) (h : segs.flatten = text) :
    Coverage text (buildPhrasesSeq segs) ∧
    buildPhrasesIndexOf text segs = buildPhrasesSeq segs ∧
    Coverage text (buildPhrasesIndexOf text segs) := by
  have hdrop : segs.flatten = text.drop 0 := by simpa using h
  have hc : 0 ≤ text.length := Nat.zero_le _
  have heq : buildPhrasesIndexOf text segs = buildPhrasesSeq segs := by
    have h2 := buildPhrasesIdx_eq_seq segs text 0 hdrop hc
    simpa [buildPhrasesIndexOf, buildPhrasesSeq] using h2
  have hcov : Coverage text (buildPhrasesSeq segs) := by
    refine ⟨?_, ?_, ?_, ?_, ?_⟩
    · intro hne
      cases segs with
      | nil => exact absurd rfl hne
      | cons s rest => simp [buildPhrasesSeq, buildPhrasesSeqAux]
    · intro i h2
      exact buildPhrasesSeqAux_chain segs 0 i h2
    · intro hne
      have h2 := buildPhrasesSeqAux_last 0 segs hne
      exact h2.trans (by rw [Nat.zero_add, h])
    · intro p hp
      exact buildPhrasesSeqAux_slice segs 0 text hdrop hc p hp
    · rw [buildPhrasesSeq, buildPhrasesSeqAux_texts, h]
  exact ⟨hcov, heq, heq ▸ hcov⟩

/-- Witness for claim C5 at the concrete example of spec section 8.7: the
segment list 我 / 爱 / 学习 / 。 covers 我爱学习。 exactly, under both
builders. -/
theorem claim_C5_witness :
    (["我".data, "爱".data, "学习".data, "。".data] : List Str).flatten = "我爱学习。".data ∧
    Coverage "我爱学习。".data (buildPhrasesSeq ["我".data, "爱".data, "学习".data, "。".data]) ∧
    buildPhrasesIndexOf "我爱学习。".data ["我".data, "爱".data, "学习".data, "。".data]
      = buildPhrasesSeq ["我".data, "爱".data, "学习".data, "。".data] := by
  have h := claim_C5_coverage "我爱学习。".data
    ["我".data, "爱".data, "学习".data, "。".data] (by decide)
  exact ⟨by decide, h.1, h.2.1⟩

/- ## Claim C7: sentence-translation degradation -/
theorem transFold_pres (lines : List Str) (l : List Str) (idx : Nat) (m : TrMap)
    (k : Str) (h : k ∉ l) :
    getKV (transFold lines idx m l) k = getKV m k := by
  induction l generalizing idx m with
  | nil => rfl
  | cons s rest ih =>
    have hs : s ≠ k := fun he => h (he ▸ List.mem_cons_self s rest)
    have hrest : k ∉ rest := fun hm => h (List.mem_cons_of_mem s hm)
    cases hg : claudeLineFor lines (idx + 1) with
    | some tr =>
      simp only [transFold, hg]
      rw [ih _ _ hrest]
      exact getKV_setKV_ne _ _ _ _ hs
    | none =>
      simp only [transFold, hg]
      rw [ih _ _ hrest]
      exact getKV_setKV_ne _ _ _ _ hs

theorem transFold_get (lines : List Str) (l : List Str) (hnd : l.Nodup) (idx : Nat)
    (m : TrMap) (i : Nat) (hi : i < l.length) :
    getKV (transFold lines idx m l) (l.get ⟨i, hi⟩)
      = some ((claudeLineFor lines (idx + i + 1)).getD unavailable) := by
  induction l generalizing idx m i with
  | nil => cases hi
  | cons s rest ih =>
    have hnotin : s ∉ rest := (List.nodup_cons.mp hnd).1
    have hnd2 : rest.Nodup := (List.nodup_cons.mp hnd).2
    cases i with
    | zero =>
      cases hg : claudeLineFor lines (idx + 1) with
      | some tr =>
        simp only [transFold, hg, List.get]
        rw [transFold_pres _ _ _ _ _ hnotin, getKV_setKV_self]
        rfl
      | none =>
        simp only [transFold, hg, List.get]
        rw [transFold_pres _ _ _ _ _ hnotin, getKV_setKV_self]
        rfl
    | succ j =>
      have hj : j < rest.length := Nat.lt_of_succ_lt_succ hi
      have hidx : idx + 1 + j + 1 = idx + (j + 1) + 1 := by omega
      cases hg : claudeLineFor lines (idx + 1) with
      | some tr =>
        simp only [transFold, hg, List.get]
        rw [ih hnd2 (idx + 1) _ j hj, hidx]
      | none =>
        simp only [transFold, hg, List.get]
        rw [ih hnd2 (idx + 1) _ j hj, hidx]

/-- Claim C7 as stated is false of /api/translate-sentences: on a thrown
transport error, and likewise on a non-2xx LLM reply, the endpoint answers
HTTP 500 — it does not fail closed to per-sentence placeholders. -/
theorem claim_C7_counterexample :
    translateSentences ⟨true, .exn, true, true⟩ [] ["你好。".data] none = .error () ∧
    translateSentences ⟨true, .httpError, true, true⟩ [] ["你好。".data] none = .error () := by
  exact ⟨rfl, rfl⟩

/-- Claim C7 (amended): when the LLM replies 2xx, /api/translate-sentences
returns a map in which the sentence at position i carries the parsed
translation for number i+1 when the reply contains that number, and the
placeholder `Translation unavailable` when it does not (stated for duplicate
free sentence lists; a repeated sentence keeps its last assignment); but on a
thrown transport error or a non-2xx LLM reply the endpoint returns HTTP 500
instead of placeholders (see the counterexample), and the store is written
only when an audio hash is supplied. -/
theorem claim_C7_amended (env : TransEnv) (st : SentStore) (sentences : List Str)
    (txt : Str) (hllm : env.llm = .ok txt) (hkey : env.apiKey = true)
    (hnd : sentences.Nodup) :
    translateSentences env st sentences none
      = .ok (transFold (respLines txt) 0 [] sentences, st) ∧
    ∀ i, (hi : i < sentences.length) →
      getKV (transFold (respLines txt) 0 [] sentences) (sentences.get ⟨i, hi⟩)
        = some ((claudeLineFor (respLines txt) (i + 1)).getD unavailable) := by
  constructor
  · simp [translateSentences, hkey, hllm]
  · intro i hi
    have h2 := transFold_get (respLines txt) sentences hnd 0 [] i hi
    rwa [Nat.zero_add] at h2

/-- Witness for the amended claim C7 at a concrete input: the reply numbers
only sentence 1, so sentence 2 receives the placeholder. -/
theorem claim_C7_witness :
    translateSentences ⟨true, .ok "1. Hello.".data, true, true⟩ []
        ["你好。".data, "再见。".data] none
      = .ok (transFold (respLines "1. Hello.".data) 0 [] ["你好。".data, "再见。".data], []) ∧
    getKV (transFold (respLines "1. Hello.".data) 0 [] ["你好。".data, "再见。".data])
        "再见。".data = some unavailable := by
  have h := claim_C7_amended ⟨true, .ok "1. Hello.".data, true, true⟩ []
    ["你好。".data, "再见。".data] "1. Hello.".data rfl rfl (by decide)
  refine ⟨h.1, ?_⟩
  have h2 := h.2 1 (by decide)
  exact h2.trans (by decide)

/- ## Claims C1 and C2: the analysis cache -/
/-- After any successful /api/analyze-text call whose upsert succeeds, the
`text_analysis` record stored under the hash is exactly the returned
bundle. -/
theorem analyze_cached (env : AnalyzeEnv) (st : AnalysisStore) (text hash : Str)
    (inc : Bool) (b : AnalysisBundle) (st1 : AnalysisStore) (c : Counts)
    (hw : env.upsertOk = true)
    (h : analyze env st text hash inc = .ok (b, st1, c)) :
    getKV st1 hash = some b := by
  by_cases hv : text = [] ∨ hash = []
  · rw [analyze, if_pos hv] at h
    cases h
  · rw [analyze, if_neg hv] at h
    cases hread : (if env.cacheReadOk then getKV st hash else none) with
    | some rec =>
      rw [hread] at h
      simp only [] at h
      by_cases hcond : inc = true ∧ rec.sentenceTranslations = none
      · rw [if_pos hcond] at h
        cases hcompute : analyzeCompute env text inc with
        | error e => rw [hcompute] at h; cases h
        | ok p =>
          rw [hcompute] at h
          cases h
          rw [upsertStep, if_pos hw]
          exact getKV_setKV_self st hash p.1
      · rw [if_neg hcond] at h
        cases h
        cases hro : env.cacheReadOk with
        | true => rw [hro, if_pos rfl] at hread; exact hread
        | false => rw [hro] at hread; simp at hread
    | none =>
      rw [hread] at h
      simp only [] at h
      cases hcompute : analyzeCompute env text inc with
      | error e => rw [hcompute] at h; cases h
      | ok p =>
        rw [hcompute] at h
        cases h
        rw [upsertStep, if_pos hw]
        exact getKV_setKV_self st hash p.1

/-- Claim C1: once a completed /api/analyze-text call (whose cache write
succeeded) has warmed the cache for `(text, hash)` — fully warm, meaning the
stored record carries sentence translations whenever they were requested — a
second call with the same arguments returns exactly the same bundle, leaves
the store untouched, and makes zero calls to the segmentation and LLM
capabilities, under any capability environment whose cache read succeeds. -/
theorem claim_C1_idempotence (env1 env2 : AnalyzeEnv) (st st1 : AnalysisStore)
    (text hash : Str) (inc : Bool) (b : AnalysisBundle) (c : Counts)
    (hw : env1.upsertOk = true)
    (h1 : analyze env1 st text hash inc = .ok (b, st1, c))
    (h2 : env2.cacheReadOk = true)
    (h3 : inc = true → b.sentenceTranslations ≠ none) :
    analyze env2 st1 text hash inc = .ok (b, st1, ⟨0, 0⟩) := by
  by_cases hv : text = [] ∨ hash = []
  · rw [analyze, if_pos hv] at h1
    cases h1
  · have hcache : getKV st1 hash = some b :=
      analyze_cached env1 st text hash inc b st1 c hw h1
    rw [analyze, if_neg hv, h2, if_pos rfl, hcache]
    have hcond : ¬(inc = true ∧ b.sentenceTranslations = none) := by
      rintro ⟨hinc, hsent⟩
      exact h3 hinc hsent
    simp only []
    rw [if_neg hcond]

/-- Witness for claim C1 at a concrete input: the store left by a first call
(computed by `rfl` in the hypothesis) is served verbatim by a second call
with zero segmentation and LLM invocations — even under an environment whose
LLM would fail. -/
theorem claim_C1_witness :
    analyze ⟨fun s => [s], false, .exn, .exn, true, true⟩
        [("h".data, ⟨[⟨"中".data, 0, 1⟩], [("中".data, ⟨[], "one".data⟩)], none⟩)]
        "中".data "h".data false
      = .ok (⟨[⟨"中".data, 0, 1⟩], [("中".data, ⟨[], "one".data⟩)], none⟩,
             [("h".data, ⟨[⟨"中".data, 0, 1⟩], [("中".data, ⟨[], "one".data⟩)], none⟩)],
             ⟨0, 0⟩) :=
  claim_C1_idempotence
    ⟨fun s => [s], true, .ok "1. one".data, .httpError, true, true⟩
    ⟨fun s => [s], false, .exn, .exn, true, true⟩
    [] [("h".data, ⟨[⟨"中".data, 0, 1⟩], [("中".data, ⟨[], "one".data⟩)], none⟩)]
    "中".data "h".data false
    ⟨[⟨"中".data, 0, 1⟩], [("中".data, ⟨[], "one".data⟩)], none⟩ ⟨1, 1⟩
    rfl rfl rfl (fun hf => nomatch hf)

/-- Claim C2 as stated is false: a partial cache hit with
`include_sentences: true` does not merge sentence translations into the
cached record while preserving its phrases and definitions — it re-runs the
whole pipeline and overwrites the record.  Concretely: a first call caches
the definition `old gloss` for 中; the second call (same text and hash, the
partial record in store) re-segments, re-queries the LLM (two further LLM
calls and one further segmentation call, counts ⟨1, 2⟩), obtains `new gloss`,
and returns and persists definitions different from the cached ones. -/
theorem claim_C2_counterexample :
    analyze ⟨fun s => [s], true, .ok "1. old gloss".data, .httpError, true, true⟩
        [] "中".data "h".data false
      = .ok (⟨[⟨"中".data, 0, 1⟩], [("中".data, ⟨[], "old gloss".data⟩)], none⟩,
             [("h".data, ⟨[⟨"中".data, 0, 1⟩], [("中".data, ⟨[], "old gloss".data⟩)], none⟩)],
             ⟨1, 1⟩) ∧
    analyze ⟨fun s => [s], true, .ok "1. new gloss".data, .ok "1. center".data, true, true⟩
        [("h".data, ⟨[⟨"中".data, 0, 1⟩], [("中".data, ⟨[], "old gloss".data⟩)], none⟩)]
        "中".data "h".data true
      = .ok (⟨[⟨"中".data, 0, 1⟩], [("中".data, ⟨[], "new gloss".data⟩)],
               some [("中".data, "center".data)]⟩,
             [("h".data, ⟨[⟨"中".data, 0, 1⟩], [("中".data, ⟨[], "new gloss".data⟩)],
               some [("中".data, "center".data)]⟩)],
             ⟨1, 2⟩) ∧
    ([("中".data, (⟨[], "new gloss".data⟩ : DefEntry))] : DefMap)
      ≠ [("中".data, ⟨[], "old gloss".data⟩)] := by
  exact ⟨rfl, rfl, by decide⟩

/-- Claim C2 (amended): on a cached record holding phrases and definitions
but no sentence translations, `analyze(text, hash, include_sentences: true)`
re-runs the full pipeline from scratch — its bundle and external-call counts
are exactly those of a call on an empty cache, so the cached phrases and
definitions are not reused and coincide with the returned ones only when the
capabilities respond as they did for the first call — and (when the write
succeeds) the record is overwritten with the freshly computed bundle. -/
theorem claim_C2_lazy_recompute (env : AnalyzeEnv) (st : AnalysisStore) (text hash : Str)
    (r : AnalysisBundle) (ht : text ≠ []) (hh : hash ≠ [])
    (hread : env.cacheReadOk = true) (hrec : getKV st hash = some r)
    (hnosent : r.sentenceTranslations = none) :
    analyze env st text hash true
      = (analyzeCompute env text true).map (fun p => (p.1, upsertStep env st hash p.1, p.2)) ∧
    (analyze env st text hash true).map (fun p => (p.1, p.2.2))
      = (analyze env ([] : AnalysisStore) text hash true).map (fun p => (p.1, p.2.2)) ∧
    (env.upsertOk = true → ∀ b st1 c, analyze env st text hash true = .ok (b, st1, c) →
      getKV st1 hash = some b) := by
  have hv : ¬(text = [] ∨ hash = []) := by
    rintro (h | h)
    · exact ht h
    · exact hh h
  have hmain : analyze env st text hash true
      = (analyzeCompute env text true).map (fun p => (p.1, upsertStep env st hash p.1, p.2)) := by
    rw [analyze, if_neg hv, hread, if_pos rfl, hrec]
    simp only []
    rw [if_pos ⟨trivial, hnosent⟩]
  have hempty : analyze env ([] : AnalysisStore) text hash true
      = (analyzeCompute env text true).map (fun p => (p.1, upsertStep env [] hash p.1, p.2)) := by
    rw [analyze, if_neg hv, hread, if_pos rfl]
    rfl
  refine ⟨hmain, ?_, ?_⟩
  · rw [hmain, hempty]
    cases hcompute : analyzeCompute env text true with
    | error e => rfl
    | ok p => rfl
  · intro hw b st1 c hres
    exact analyze_cached env st text hash true b st1 c hw hres

/-- Witness for the amended claim C2 at a concrete input: with the partial
record for 中 in store, the call reduces to the from-scratch recomputation
followed by the overwriting upsert. -/
theorem claim_C2_witness :
    analyze ⟨fun s => [s], true, .ok "1. new gloss".data, .ok "1. center".data, true, true⟩
        [("h".data, ⟨[⟨"中".data, 0, 1⟩], [("中".data, ⟨[], "old gloss".data⟩)], none⟩)]
        "中".data "h".data true
      = (analyzeCompute
            ⟨fun s => [s], true, .ok "1. new gloss".data, .ok "1. center".data, true, true⟩
            "中".data true).map
          (fun p => (p.1,
            upsertStep
              ⟨fun s => [s], true, .ok "1. new gloss".data, .ok "1. center".data, true, true⟩
              [("h".data, ⟨[⟨"中".data, 0, 1⟩], [("中".data, ⟨[], "old gloss".data⟩)], none⟩)]
              "h".data p.1, p.2)) :=
  (claim_C2_lazy_recompute
    ⟨fun s => [s], true, .ok "1. new gloss".data, .ok "1. center".data, true, true⟩
    [("h".data, ⟨[⟨"中".data, 0, 1⟩], [("中".data, ⟨[], "old gloss".data⟩)], none⟩)]
    "中".data "h".data
    ⟨[⟨"中".data, 0, 1⟩], [("中".data, ⟨[], "old gloss".data⟩)], none⟩
    (by decide) (by decide) rfl rfl rfl).1

/- ## Claim C9: audio cache short-circuit -/
/-- Claim C9: in the Listen.jsx transcript flow, when the cache check for the
client-computed hash answers `cached: true`, the flow makes exactly one
request — the cache check itself — and never invokes the transcription
upload for any hash. -/
theorem claim_C9_short_circuit (sha : List Nat → Str) (serverReadOk : Bool)
    (tstore : TranscriptStore) (transcribeResp : Except Unit TranscriptRow)
    (file : List Nat) (resp : CacheResp)
    (hfile : file ≠ [])
    (hresp : checkTranscriptCache serverReadOk tstore (sha file) = .ok resp)
    (hc : resp.cached = true) :
    (handleGenerateTranscript sha true serverReadOk tstore transcribeResp file).1
      = [ApiCall.checkCache (sha file)] ∧
    ∀ h2, ApiCall.transcribeUpload h2
      ∉ (handleGenerateTranscript sha true serverReadOk tstore transcribeResp file).1 := by
  have hres : (handleGenerateTranscript sha true serverReadOk tstore transcribeResp file).1
      = [ApiCall.checkCache (sha file)] := by
    simp [handleGenerateTranscript, hfile, hresp, hc]
  refine ⟨hres, ?_⟩
  intro h2
  rw [hres]
  simp

/-- Witness for claim C9 at a concrete input: with the transcript for hash h
cached, the flow performs only the cache check, and no upload happens even
though the transcription capability stands ready to answer. -/
theorem claim_C9_witness :
    (handleGenerateTranscript (fun _ => "h".data) true true [("h".data, ⟨"你好".data⟩)]
        (.ok ⟨"fresh".data⟩) [1]).1 = [ApiCall.checkCache "h".data] ∧
    ApiCall.transcribeUpload "h".data
      ∉ (handleGenerateTranscript (fun _ => "h".data) true true [("h".data, ⟨"你好".data⟩)]
        (.ok ⟨"fresh".data⟩) [1]).1 := by
  have h := claim_C9_short_circuit (fun _ => "h".data) true [("h".data, ⟨"你好".data⟩)]
    (.ok ⟨"fresh".data⟩) [1] ⟨true, some ⟨"你好".data⟩⟩ (by decide) rfl rfl
  exact ⟨h.1, h.2 "h".data⟩
